import Mathlib

/-!
Verification of the base-image replacement engine (registry-replacer).

This file shallowly embeds the core of `cmd/registry-replacer/main.go`
(driver, pull-spec canonicalizer, replacement synthesizer, pruning engine,
promotion-Dockerfile reconciler) together with the in-repository line-based
Dockerfile candidate extractor `extractAllSourceImagesFromDockerfile` from
the legacy driver file.  Go maps are embedded as association lists; YAML
serialization (which sorts map keys) is embedded as a key-sorting
normalization; byte strings are embedded as `String`.  String helpers of the
Go standard library (`strings.Split` on a single-character separator,
`bytes.Fields`, `bytes.Contains`, the literal regular expression
`registry\.svc\.ci\.openshift\.org\/[^\s]+`) are implemented here by
structural recursion over the character list so that all definitions are
kernel-computable.  ASCII inputs are assumed for case folding and whitespace
(all strings handled by the tool are ASCII).
-/

set_option maxRecDepth 40000

deriving instance DecidableEq for Except

/-- Whitespace class of the Go regexp escape `\s`: tab, newline, form feed,
carriage return and space. -/
def isSpaceRegexGo (c : Char) : Bool :=
  c = ' ' || c = '\t' || c = '\n' || c = '\r' || c = Char.ofNat 12

/-- Whitespace recognized by `bytes.Fields` (`unicode.IsSpace`), restricted to
ASCII: tab, newline, vertical tab, form feed, carriage return and space. -/
def isSpaceFieldsGo (c : Char) : Bool :=
  c = ' ' || c = '\t' || c = '\n' || c = '\r' || c = Char.ofNat 11 || c = Char.ofNat 12

/-- ASCII lower casing, as used by `bytes.EqualFold` on ASCII input. -/
def toLowerAscii (c : Char) : Char :=
  if 65 ≤ c.toNat && c.toNat ≤ 90 then Char.ofNat (c.toNat + 32) else c

/-- `bytes.EqualFold` on ASCII input: equality up to case. -/
def eqFold (a b : String) : Bool :=
  a.toList.map toLowerAscii == b.toList.map toLowerAscii

/-- Helper of `goFields`: accumulates the current (reversed) word. -/
def goFieldsAux (cur : List Char) : List Char → List (List Char)
  | [] => if cur.isEmpty then [] else [cur.reverse]
  | c :: rest =>
    if isSpaceFieldsGo c then
      if cur.isEmpty then goFieldsAux [] rest
      else cur.reverse :: goFieldsAux [] rest
    else goFieldsAux (c :: cur) rest

/-- `bytes.Fields`: splits around maximal runs of whitespace. -/
def goFields (s : String) : List String :=
  (goFieldsAux [] s.toList).map (fun l => String.mk l)

/-- Helper of `goSplit`, over character lists. -/
def splitOnCharAux (sep : Char) : List Char → List (List Char)
  | [] => [[]]
  | c :: rest =>
    if c = sep then [] :: splitOnCharAux sep rest
    else
      match splitOnCharAux sep rest with
      | [] => [[c]]
      | h :: t => (c :: h) :: t

/-- `strings.Split` (and `bytes.Split`) for a single-character separator. -/
def goSplit (sep : Char) (s : String) : List String :=
  (splitOnCharAux sep s.toList).map (fun l => String.mk l)

/-- The line split `bytes.Split(dockerfile, []byte("\n"))` used by the driver. -/
def splitLines (dockerfile : String) : List String := goSplit '\n' dockerfile

/-- `bytes.Contains` over character lists. -/
def listContainsSub (s pat : List Char) : Bool :=
  match s with
  | [] => pat.isEmpty
  | c :: rest => pat.isPrefixOf (c :: rest) || listContainsSub rest pat

/-- `bytes.Contains` over strings. -/
def strContainsSub (s pat : String) : Bool := listContainsSub s.toList pat.toList

/-- The literal part of the source regular expression, ending in the slash. -/
def registryHostSlash : List Char := "registry.svc.ci.openshift.org/".toList

/-- Leftmost match of the anchored pattern `host ++ "/" ++ [^\s]+`: the first
position whose suffix starts with the literal host plus slash followed by at
least one non-whitespace character; the match is the maximal non-whitespace
run from that position (the host itself contains no whitespace). -/
def findTokenAux (pat : List Char) : List Char → Option (List Char)
  | [] => none
  | c :: rest =>
    if pat.isPrefixOf (c :: rest)
        && (match (c :: rest).drop pat.length with
            | [] => false
            | c2 :: _ => !isSpaceRegexGo c2) then
      some ((c :: rest).takeWhile (fun ch => !isSpaceRegexGo ch))
    else findTokenAux pat rest

/-- `registryRegex.Find(line)`: leftmost match of
`registry\.svc\.ci\.openshift\.org\/[^\s]+` in a line. -/
def findRegistryToken (line : List Char) : Option String :=
  (findTokenAux registryHostSlash line).map (fun l => String.mk l)

/-- One iteration of the token-collection loop of `ensureReplacement`: a line
contributes a pull-spec token when it contains the literal `FROM`, contains
the registry host, and the regular expression matches. -/
def lineReplacementToken (line : String) : Option String :=
  if strContainsSub line "FROM" && strContainsSub line "registry.svc.ci.openshift.org" then
    findRegistryToken line.toList
  else none

/-- The `toReplace` list collected by `ensureReplacement`, in line order. -/
def ensureTokens (dockerfile : String) : List String :=
  (splitLines dockerfile).filterMap lineReplacementToken

/-! ## Data model -/

/-- `api.ImageStreamTagReference`, the Base-Image Table value. -/
structure ImageStreamTagReference where
  Namespace : String
  Name : String
  Tag : String
deriving DecidableEq

/-- `api.ImageBuildInputs`: one Input Record. -/
structure ImageBuildInputs where
  As : List String
  Paths : List String
deriving DecidableEq

/-- `api.ProjectDirectoryImageBuildStepConfiguration`: one Image Entry.  The
`Inputs` Go map is embedded as an association list. -/
structure ImageEntry where
  From : String
  To : String
  ContextDir : String
  DockerfilePath : String
  Inputs : List (String × ImageBuildInputs)
deriving DecidableEq

/-- `api.ReleaseBuildConfiguration`, restricted to the fields the replacer
reads and writes; `Branch` is `Metadata.Branch`. -/
structure Config where
  Branch : String
  Images : List ImageEntry
  BaseImages : List (String × ImageStreamTagReference)
deriving DecidableEq

/-- Go map lookup on the association-list embedding. -/
def lookupA {α : Type} (m : List (String × α)) (k : String) : Option α :=
  match m with
  | [] => none
  | (k2, v) :: rest => if k2 = k then some v else lookupA rest k

/-- Go map assignment on the association-list embedding: replaces the binding
when the key is present, appends it otherwise. -/
def insertA {α : Type} (m : List (String × α)) (k : String) (v : α) : List (String × α) :=
  match m with
  | [] => [(k, v)]
  | (k2, v2) :: rest => if k2 = k then (k, v) :: rest else (k2, v2) :: insertA rest k v

/-- Key-sorting of an association list; models that `yaml.Marshal` emits map
keys in sorted order, so two Go maps with equal contents serialize equally. -/
def sortAssoc {α : Type} (m : List (String × α)) : List (String × α) :=
  List.insertionSort (fun a b => a.1 ≤ b.1) m

/-- `sets.NewString(l...).List()`: the sorted duplicate-free list of a string
set. -/
def sortDedup (l : List String) : List String :=
  List.insertionSort (fun a b => a ≤ b) l.dedup

/-- `sets.String.Insert` where only set membership and a canonical list shape
matter: appends the element unless already present. -/
def setInsert (x : String) (l : List String) : List String :=
  if l.contains x then l else l ++ [x]

/-! ## Pull-Spec Canonicalizer -/

/-- The `orgRepoTag` triple of the source. -/
structure OrgRepoTag where
  org : String
  repo : String
  tag : String
deriving DecidableEq

/-- `orgRepoTag.String()`: the canonical identifier `org_repo_tag`. -/
def OrgRepoTag.toKey (o : OrgRepoTag) : String := o.org ++ "_" ++ o.repo ++ "_" ++ o.tag

/-- The trailing colon handling of `orgRepoTagFromPullString`: split the repo
on every colon and only when exactly two parts result do they become
repo and tag. -/
def applyTagSplit (res : OrgRepoTag) : OrgRepoTag :=
  match goSplit ':' res.repo with
  | [r, t] => { res with repo := r, tag := t }
  | _ => res

/-- The parse-failure message of `orgRepoTagFromPullString` (it names the
offending string and the segment count). -/
def parseErrMsg (pullString : String) (n : Nat) : String :=
  "pull string \"" ++ pullString ++
    "\" could not be parsed, expected to get between one and three elements after slashsplitting, got "
    ++ toString n

/-- `orgRepoTagFromPullString`: slash-split with asymmetric segment-count
handling, then the colon split of `applyTagSplit`; the tag defaults to
`latest`. -/
def orgRepoTagFromPullString (pullString : String) : Except String OrgRepoTag :=
  let slashSplit := goSplit '/' pullString
  let n := slashSplit.length
  if n = 1 then
    .ok (applyTagSplit { org := "_", repo := slashSplit.headD "", tag := "latest" })
  else if n = 2 then
    .ok (applyTagSplit { org := slashSplit.headD "", repo := (slashSplit.drop 1).headD "", tag := "latest" })
  else if n = 3 then
    .ok (applyTagSplit { org := (slashSplit.drop 1).headD "", repo := (slashSplit.drop 2).headD "", tag := "latest" })
  else
    .error (parseErrMsg pullString n)

/-! ## Dockerfile candidate extractor (legacy line-based version,
`extractAllSourceImagesFromDockerfile`) -/

/-- The scanning state of `extractAllSourceImagesFromDockerfile`: the recorded
stage aliases and the collected candidate images. -/
structure ExtractState where
  aliases : List String
  results : List String
deriving DecidableEq

/-- One line of `extractAllSourceImagesFromDockerfile`: non-`FROM` lines are
skipped; a `FROM` line must have two or four fields (else a parse error naming
the line and the count); a four-field line records its alias first; the image
field is inserted into the results unless it matches a recorded alias. -/
def extractLineStep (st : ExtractState) (line : String) : Except String ExtractState :=
  let words := goFields line
  match words with
  | [] => .ok st
  | w :: _ =>
    if !eqFold w "from" then .ok st
    else if words.length != 2 && words.length != 4 then
      .error ("extracting words from line \"" ++ line ++ "\" did not yield two or four but "
        ++ toString words.length ++ " results")
    else
      let aliases2 := if words.length == 4 then setInsert ((words.drop 3).headD "") st.aliases
        else st.aliases
      let img := (words.drop 1).headD ""
      if aliases2.contains img then .ok { aliases := aliases2, results := st.results }
      else .ok { aliases := aliases2, results := setInsert img st.results }

/-- Folds `extractLineStep` over the lines, stopping at the first error. -/
def extractLinesGo (st : ExtractState) : List String → Except String ExtractState
  | [] => .ok st
  | l :: rest =>
    match extractLineStep st l with
    | .error e => .error e
    | .ok st2 => extractLinesGo st2 rest

/-- `extractAllSourceImagesFromDockerfile`: the candidate set of a Dockerfile,
collected line by line. -/
def extractAllSourceImagesFromDockerfile (dockerfile : String) : Except String (List String) :=
  match extractLinesGo ⟨[], []⟩ (splitLines dockerfile) with
  | .error e => .error e
  | .ok st => .ok st.results

/-! ## Replacement synthesizer (`ensureReplacement`) -/

/-- `hasReplacementFor`: whether any Input Record of the entry already lists
the target in its `As` set. -/
def hasReplacementFor (image : ImageEntry) (target : String) : Bool :=
  image.Inputs.any (fun kv => kv.2.As.contains target)

/-- The insertion step of `ensureReplacement`: the token is added to the `As`
set of the Input Record under the canonical key (the record is created when
absent), and the `As` set is kept sorted and duplicate-free by
`sets.NewString(...).Insert(...).List()`. -/
def ensureInsertToken (image : ImageEntry) (key tok : String) : ImageEntry :=
  let inputs := (lookupA image.Inputs key).getD ⟨[], []⟩
  let inputs2 : ImageBuildInputs := { inputs with As := sortDedup (inputs.As ++ [tok]) }
  { image with Inputs := insertA image.Inputs key inputs2 }

/-- The token loop of `ensureReplacement`: each token is canonicalized (a
failure aborts with a wrapped error naming the token), skipped when some
record already lists it, and inserted otherwise; inserted triples are
returned in order. -/
def ensureLoop (image : ImageEntry) : List String → Except String (ImageEntry × List OrgRepoTag)
  | [] => .ok (image, [])
  | t :: rest =>
    match orgRepoTagFromPullString t with
    | .error e => .error ("failed to parse string " ++ t ++ " as pullspec: " ++ e)
    | .ok ort =>
      if hasReplacementFor image t then ensureLoop image rest
      else
        match ensureLoop (ensureInsertToken image ort.toKey t) rest with
        | .error e => .error e
        | .ok (img2, tags) => .ok (img2, ort :: tags)

/-- `ensureReplacement`: collects the registry tokens of the Dockerfile and
runs the insertion loop. -/
def ensureReplacement (image : ImageEntry) (dockerfile : String) :
    Except String (ImageEntry × List OrgRepoTag) :=
  ensureLoop image (ensureTokens dockerfile)

/-- The Base-Image Table merge the driver performs on the triples returned by
`ensureReplacement`: an entry is inserted only when the canonical identifier
has no entry yet; existing entries are left untouched. -/
def mergeBaseImages (bi : List (String × ImageStreamTagReference)) (tags : List OrgRepoTag) :
    List (String × ImageStreamTagReference) :=
  tags.foldl (fun acc t =>
    if (lookupA acc t.toKey).isSome then acc
    else insertA acc t.toKey ⟨t.org, t.repo, t.tag⟩) bi

/-- `applyReplacementsToDockerfile`: when the entry declares no `From` the
Dockerfile passes through unchanged; otherwise the last-stage base-image
substitution is performed.  The substitution itself
(`imagebuilder.ParseDockerfile` plus `replaceLastFrom`) lives in external
libraries, so it is abstracted as the parameter `sim`, applied to the raw
Dockerfile and the `From` value. -/
def applyReplacementsToDockerfile (sim : String → String → Except String String)
    (dockerfile : String) (image : ImageEntry) : Except String String :=
  if image.From = "" then .ok dockerfile else sim dockerfile image.From

/-! ## Pruning engine (`pruneReplacements` and its two policies) -/

/-- The `As` loop of `pruneReplacements`: entries whose filter returns true
are retained; an entry whose filter errors is dropped and its error collected;
errors keep iteration order. -/
def pruneAsList (filter : String → String → Except String Bool) (k : String) :
    List String → List String × List String
  | [] => ([], [])
  | a :: rest =>
    let (tl, errs) := pruneAsList filter k rest
    match filter a k with
    | .error e => (tl, e :: errs)
    | .ok true => (a :: tl, errs)
    | .ok false => (tl, errs)

/-- The Input-Record loop of `pruneReplacements`: a record whose filtered `As`
list is empty and whose `Paths` list is empty is deleted; otherwise the record
is kept with the filtered `As` list. -/
def pruneInputsRec (filter : String → String → Except String Bool) :
    List (String × ImageBuildInputs) → List (String × ImageBuildInputs) × List String
  | [] => ([], [])
  | (k, v) :: rest =>
    let (newAs, errs1) := pruneAsList filter k v.As
    let (tl, errs2) := pruneInputsRec filter rest
    if newAs.isEmpty && v.Paths.isEmpty then (tl, errs1 ++ errs2)
    else ((k, { v with As := newAs }) :: tl, errs1 ++ errs2)

/-- The Image-Entry loop of `pruneReplacements`: after its records are pruned,
an entry is kept only when its Input Mapping is non-empty or its `From` or
`To` is non-empty. -/
def pruneImagesRec (filter : String → String → Except String Bool) :
    List ImageEntry → List ImageEntry × List String
  | [] => ([], [])
  | img :: rest =>
    let (inp2, errs1) := pruneInputsRec filter img.Inputs
    let img2 := { img with Inputs := inp2 }
    let (tl, errs2) := pruneImagesRec filter rest
    if !img2.Inputs.isEmpty || img2.From != "" || img2.To != "" then
      (img2 :: tl, errs1 ++ errs2)
    else (tl, errs1 ++ errs2)

/-- `pruneReplacements`: the generic filter-driven reducer; returns the pruned
document and the collected filter errors. -/
def pruneReplacements (cfg : Config) (filter : String → String → Except String Bool) :
    Config × List String :=
  let (imgs, errs) := pruneImagesRec filter cfg.Images
  ({ cfg with Images := imgs }, errs)

/-- The keep-predicate of the unused-replacement policy: membership in the
extracted candidate set. -/
def unusedFilter (cands : List String) : String → String → Except String Bool :=
  fun asDirective _ => .ok (cands.contains asDirective)

/-- `pruneUnusedReplacements`. -/
def pruneUnusedReplacements (cfg : Config) (cands : List String) : Config × List String :=
  pruneReplacements cfg (unusedFilter cands)

/-- The keep-predicate of the disallowed-namespace policy: a token failing
canonicalization yields a wrapped error; a token whose triple is not
(ocp, builder) is kept; otherwise the token is kept only when the Base-Image
Table entry for the input key exists and equals the canonical triple. -/
def ocpBuilderFilter (cfg : Config) : String → String → Except String Bool :=
  fun asDirective imageKey =>
    match orgRepoTagFromPullString asDirective with
    | .error e => .error ("failed to extract org and tag from pull spec " ++ asDirective ++ ": " ++ e)
    | .ok ort =>
      if ort.org != "ocp" || ort.repo != "builder" then .ok true
      else
        match lookupA cfg.BaseImages imageKey with
        | none => .ok false
        | some ref =>
          if ref.Namespace == ort.org && ref.Name == ort.repo && ref.Tag == ort.tag then .ok true
          else .ok false

/-- `pruneOCPBuilderReplacements`. -/
def pruneOCPBuilderReplacements (cfg : Config) : Config × List String :=
  pruneReplacements cfg (ocpBuilderFilter cfg)

/-! ## Promotion-Dockerfile reconciler -/

/-- `filepath.Join` of the two driver call sites, with the empty-directory
case handled as Go does; path cleaning of already-clean inputs is the
identity and is elided here. -/
def filepathJoin (dir file : String) : String :=
  if dir = "" then file else dir ++ "/" ++ file

/-- The effective Dockerfile path of an Image Entry: `DockerfilePath`
defaulting to `Dockerfile`, joined under `ContextDir`. -/
def actualDockerfilePath (image : ImageEntry) : String :=
  filepathJoin image.ContextDir (if image.DockerfilePath = "" then "Dockerfile" else image.DockerfilePath)

/-- The tag-indexed map of promotion targets built by
`updateDockerfilesToMatchOCPBuildData`, keeping only targets promoted into
the `ocp` namespace of the current release.  Modelled from the spec: the raw
promoted-tag list itself is produced by `release.PromotedTags`, which is not
part of the embedded sources, so it is taken here as the explicit input
`promoted` (every Image Entry target this document promotes). -/
def promotedTagIndex (promoted : List ImageStreamTagReference) (majorMinorVersion : String) :
    List (String × ImageStreamTagReference) :=
  (promoted.filter (fun t => t.Namespace == "ocp" && t.Name == majorMinorVersion)).foldl
    (fun m t => insertA m t.Tag t) []

/-- The stringified external pull-spec of a promotion target. -/
def stringifiedPromotionTarget (pt : ImageStreamTagReference) (toField : String) : String :=
  "registry.svc.ci.openshift.org/" ++ pt.Namespace ++ "/" ++ pt.Name ++ ":" ++ toField

/-- `updateDockerfilesToMatchOCPBuildData`: a no-op off the `master` branch
and when no tag is promoted into the current release; otherwise each entry
whose `To` matches a promoted tag and whose authoritative Dockerfile path
(looked up by stringified pull-spec) differs from the effective path gets
`ContextDir` cleared and `DockerfilePath` overwritten; entries absent from
the mapping are left alone. -/
def updateDockerfilesToMatchOCPBuildData (cfg : Config) (mapping : List (String × String))
    (majorMinorVersion : String) (promoted : List ImageStreamTagReference) : Config :=
  if cfg.Branch ≠ "master" then cfg
  else
    let promotedTags := promotedTagIndex promoted majorMinorVersion
    if promotedTags.isEmpty then cfg
    else
      { cfg with Images := cfg.Images.map (fun image =>
          match lookupA promotedTags image.To with
          | none => image
          | some promotionTarget =>
            match lookupA mapping (stringifiedPromotionTarget promotionTarget image.To) with
            | none => image
            | some dockerfilePath =>
              if dockerfilePath ≠ actualDockerfilePath image then
                { image with ContextDir := "", DockerfilePath := dockerfilePath }
              else image) }

/-! ## Driver (`replacer`) -/

/-- The per-image body of the driver loop: fetch the Dockerfile, record
whether it was non-empty, run the build-time simulation, the replacement
synthesizer, the Base-Image Table merge and the candidate extraction, each
failure wrapped as in the source. -/
def processImage (sim : String → String → Except String String)
    (extract : String → Except String (List String))
    (getter : String → Except String String)
    (image : ImageEntry) (bi : List (String × ImageStreamTagReference)) :
    Except String (ImageEntry × List (String × ImageStreamTagReference) × Bool × List String) :=
  match getter (actualDockerfilePath image) with
  | .error e => .error ("failed to get dockerfile " ++ image.DockerfilePath ++ ": " ++ e)
  | .ok d0 =>
    match applyReplacementsToDockerfile sim d0 image with
    | .error e => .error ("failed to apply replacements to Dockerfile: " ++ e)
    | .ok d1 =>
      match ensureReplacement image d1 with
      | .error e => .error ("failed to ensure replacements: " ++ e)
      | .ok (img2, tags) =>
        match extract d1 with
        | .error e => .error ("failed to extract source images from dockerfile: " ++ e)
        | .ok cands => .ok (img2, mergeBaseImages bi tags, !(d0 == ""), cands)

/-- The driver loop over all Image Entries, threading the Base-Image Table,
or-accumulating the non-empty-Dockerfile flag and appending the candidate
sets. -/
def processImages (sim : String → String → Except String String)
    (extract : String → Except String (List String))
    (getter : String → Except String String) :
    List ImageEntry → List (String × ImageStreamTagReference) →
    Except String (List ImageEntry × List (String × ImageStreamTagReference) × Bool × List String)
  | [], bi => .ok ([], bi, false, [])
  | image :: rest, bi =>
    match processImage sim extract getter image bi with
    | .error e => .error e
    | .ok (img2, bi2, ne, cands) =>
      match processImages sim extract getter rest bi2 with
      | .error e => .error e
      | .ok (imgs, bi3, ne2, cands2) => .ok (img2 :: imgs, bi3, ne || ne2, cands ++ cands2)

/-- Serialization normal form: `yaml.Marshal` emits Go maps with sorted keys,
so comparing serialized documents compares the key-sorted association lists;
all other fields serialize in declaration order. -/
def marshalNorm (cfg : Config) : Config :=
  { cfg with Images := cfg.Images.map (fun i => { i with Inputs := sortAssoc i.Inputs }),
             BaseImages := sortAssoc cfg.BaseImages }

/-- `utilerrors.NewAggregate`: no error for an empty list, an aggregate
message otherwise. -/
def aggErrs (errs : List String) : Except String Unit :=
  if errs.isEmpty then .ok () else .error (String.intercalate ", " errs)

/-- The mutating phases of `replacer` in order: optional promotion-Dockerfile
reconciliation, the per-image loop, unused-replacement pruning (only when
enabled and some fetched Dockerfile was non-empty), and disallowed-namespace
pruning (when enabled); pruning errors abort. -/
def replacerCore (sim : String → String → Except String String)
    (extract : String → Except String (List String))
    (getter : String → Except String String)
    (pruneUnusedEnabled pruneOCPEnabled ensurePromotion : Bool)
    (mapping : List (String × String)) (majorMinorVersion : String)
    (promoted : List ImageStreamTagReference) (cfg : Config) : Except String Config :=
  let cfg1 := if ensurePromotion then
      updateDockerfilesToMatchOCPBuildData cfg mapping majorMinorVersion promoted
    else cfg
  match processImages sim extract getter cfg1.Images cfg1.BaseImages with
  | .error e => .error e
  | .ok (imgs, bi, hasNonEmptyDockerfile, cands) =>
    let cfg2 : Config := { cfg1 with Images := imgs, BaseImages := bi }
    let step3 : Except String Config :=
      if pruneUnusedEnabled && hasNonEmptyDockerfile then
        let (c, errs) := pruneUnusedReplacements cfg2 cands
        match aggErrs errs with
        | .error e => .error ("failed to prune unused replacements: " ++ e)
        | .ok _ => .ok c
      else .ok cfg2
    match step3 with
    | .error e => .error e
    | .ok cfg3 =>
      if pruneOCPEnabled then
        let (c, errs) := pruneOCPBuilderReplacements cfg3
        match aggErrs errs with
        | .error e => .error ("failed to prune ocp builder replacements: " ++ e)
        | .ok _ => .ok c
      else .ok cfg3

/-- `replacer` for one configuration document: documents without images are
skipped; otherwise the phases run and the new serialization is handed to the
writer only when it differs from the original serialization.  The returned
option is the at-most-one writer invocation (`none` = the writer was not
invoked). -/
def replacerRun (sim : String → String → Except String String)
    (extract : String → Except String (List String))
    (getter : String → Except String String)
    (pruneUnusedEnabled pruneOCPEnabled ensurePromotion : Bool)
    (mapping : List (String × String)) (majorMinorVersion : String)
    (promoted : List ImageStreamTagReference) (cfg : Config) :
    Except String (Config × Option Config) :=
  if cfg.Images.isEmpty then .ok (cfg, none)
  else
    match replacerCore sim extract getter pruneUnusedEnabled pruneOCPEnabled ensurePromotion
        mapping majorMinorVersion promoted cfg with
    | .error e => .error e
    | .ok fin =>
      if marshalNorm fin = marshalNorm cfg then .ok (fin, none)
      else .ok (fin, some (marshalNorm fin))

/-! ## Claim C1: the pull-spec canonicalizer -/

/-- Split on the FIRST colon only, as claim C1 words the tag handling
(`strings.SplitN(s, ":", 2)` semantics). -/
def splitFirstColon (s : String) : List String :=
  match goSplit ':' s with
  | [] => []
  | [a] => [a]
  | a :: rest => [a, String.intercalate ":" rest]

/-- The tag rule exactly as claim C1 states it: the repo part is split on the
first colon; if two parts result they become repo and tag, otherwise the tag
is `latest`. -/
def tagOfRepoFirst (r : String) : String × String :=
  match splitFirstColon r with
  | [a, b] => (a, b)
  | _ => (r, "latest")

/-- The canonicalizer as claim C1 states it (spec transcription): asymmetric
slash handling, then the first-colon tag rule of `tagOfRepoFirst`. -/
def orgRepoTagClaimC1 (s : String) : Except String OrgRepoTag :=
  match goSplit '/' s with
  | [r] => .ok ⟨"_", (tagOfRepoFirst r).1, (tagOfRepoFirst r).2⟩
  | [o, r] => .ok ⟨o, (tagOfRepoFirst r).1, (tagOfRepoFirst r).2⟩
  | [_, o, r] => .ok ⟨o, (tagOfRepoFirst r).1, (tagOfRepoFirst r).2⟩
  | l => .error (parseErrMsg s l.length)

/-- The amended tag rule: the repo part is split on EVERY colon and only when
exactly two parts result do they become repo and tag; otherwise (no colon, or
two or more colons) the repo stays whole and the tag is `latest`. -/
def tagOfRepoExactTwo (r : String) : String × String :=
  match goSplit ':' r with
  | [a, b] => (a, b)
  | _ => (r, "latest")

/-- The canonicalizer as amended for claim C1 (spec transcription): asymmetric
slash handling, then the exactly-two-parts colon rule of `tagOfRepoExactTwo`. -/
def orgRepoTagAmendedC1 (s : String) : Except String OrgRepoTag :=
  match goSplit '/' s with
  | [r] => .ok ⟨"_", (tagOfRepoExactTwo r).1, (tagOfRepoExactTwo r).2⟩
  | [o, r] => .ok ⟨o, (tagOfRepoExactTwo r).1, (tagOfRepoExactTwo r).2⟩
  | [_, o, r] => .ok ⟨o, (tagOfRepoExactTwo r).1, (tagOfRepoExactTwo r).2⟩
  | l => .error (parseErrMsg s l.length)

/-! ## Concrete instances used by counterexamples and witnesses -/

/-- A bare `FROM` line: exactly one field, case-insensitively equal to
`from`. -/
def isBareFromLine (line : String) : Bool :=
  match goFields line with
  | [w] => eqFold w "from"
  | _ => false

/-- Identity build-time simulation for concrete runs (entries with empty
`From` never reach the simulation parameter anyway). -/
def simId : String → String → Except String String := fun d _ => .ok d

/-- Image Entry A of the C2 counterexample: prunable (empty `From` and `To`),
its Dockerfile references image `x`, its sole Input Record lists a token `y`
no Dockerfile mentions. -/
def imgA : ImageEntry := ⟨"", "", "", "a", [("k", ⟨["y"], []⟩)]⟩

/-- Image Entry B of the C2 counterexample: survives pruning through its
`To`, and its Input Record lists the token `x` that only entry A's Dockerfile
references. -/
def imgB : ImageEntry := ⟨"", "b", "", "bf", [("kx", ⟨["x"], []⟩)]⟩

/-- The two-entry document of the C2 counterexample. -/
def cfgC2 : Config := ⟨"main", [imgA, imgB], []⟩

/-- The Dockerfile fetches of the C2 counterexample. -/
def getterC2 : String → Except String String :=
  fun p => if p = "a" then .ok "FROM x" else if p = "bf" then .ok "FROM z" else .ok ""

/-- The C2 document after the first run: entry A was cascade-deleted. -/
def cfgC2b : Config := ⟨"main", [imgB], []⟩

/-- The C2 document after the second run: entry B's Input Record is gone too,
because entry A's Dockerfile no longer contributes the candidate `x`. -/
def cfgC2c : Config := ⟨"main", [⟨"", "b", "", "bf", []⟩], []⟩

/-- The document of the C5 counterexample: one As token canonicalizing to the
disallowed (ocp, builder) pair whose input key has no Base-Image Table
entry. -/
def cfgC5 : Config := ⟨"main", [⟨"keepme", "", "", "", [("somekey", ⟨["ocp/builder"], []⟩)]⟩], []⟩

/-- The document of the C10 concrete clause: one As token that fails
pull-spec canonicalization (it has three slashes). -/
def cfgC10 : Config := ⟨"main", [⟨"keep", "", "", "", [("ky", ⟨["x/y/z/w"], []⟩)]⟩], []⟩

/-- A one-entry document used to exercise driver theorems at a concrete
input. -/
def cfgOneTrivial : Config := ⟨"main", [⟨"", "", "", "", []⟩], []⟩

/-- A second one-entry document (distinct from `cfgOneTrivial`) used by the
C7 witness. -/
def cfgC7w : Config := ⟨"w7", [⟨"", "", "", "df", []⟩], []⟩

/-- A third one-entry document used by the C8 witness. -/
def cfgC8w : Config := ⟨"w8", [⟨"", "t8", "", "", [("k8", ⟨["img8"], []⟩)]⟩], []⟩

/-- A document off the integration branch, used by the C9 witness. -/
def cfgC9w : Config := ⟨"release-4.5", [⟨"", "tag9", "ctx", "", []⟩], []⟩

/-- A document with a pre-existing Base-Image Table entry, used by the C6
witness. -/
def cfgC6w : Config := ⟨"w6", [⟨"", "", "", "", []⟩], [("k0", ⟨"nsp", "nm", "tg"⟩)]⟩

/-! ## Helper lemmas -/

lemma mem_sortDedup (x : String) (l : List String) : x ∈ sortDedup l ↔ x ∈ l := by
  unfold sortDedup
  rw [(List.perm_insertionSort (fun a b => a ≤ b) l.dedup).mem_iff]
  exact List.mem_dedup

lemma contains_iff_mem (l : List String) (x : String) : l.contains x = true ↔ x ∈ l := by
  simp [List.contains, List.elem_iff]

lemma lookupA_insertA_ne {α : Type} (m : List (String × α)) (k2 k : String) (v : α)
    (h : k2 ≠ k) : lookupA (insertA m k2 v) k = lookupA m k := by
  induction m with
  | nil => simp [insertA, lookupA, h]
  | cons kv rest ih =>
    by_cases h2 : kv.1 = k2
    · simp [insertA, h2, lookupA, h]
    · by_cases h3 : kv.1 = k
      · simp [insertA, h2, lookupA, h3, Ne.symm h]
      · simp [insertA, h2, lookupA, h3, ih]

lemma lookupA_some_ne_nil {α : Type} (m : List (String × α)) (k : String) (v : α)
    (h : lookupA m k = some v) : m.isEmpty = false := by
  cases m with
  | nil => simp [lookupA] at h
  | cons kv rest => rfl
lemma applyTagSplit_eq_exactTwo (o r : String) :
    applyTagSplit ⟨o, r, "latest"⟩ = ⟨o, (tagOfRepoExactTwo r).1, (tagOfRepoExactTwo r).2⟩ := by
  unfold applyTagSplit tagOfRepoExactTwo
  rcases goSplit ':' r with _ | ⟨a, _ | ⟨b, _ | ⟨c, l⟩⟩⟩ <;> rfl

/-- Claim C1, corrected: the canonicalizer splits on slashes with the stated
asymmetric segment handling and fails (naming the offending string) on any
other segment count, but the repo part is split on EVERY colon and the parts
become repo and tag only when EXACTLY two result; with two or more colons the
repo stays whole and the tag falls back to `latest`. -/
theorem c1_canonicalizer_amended (s : String) :
    orgRepoTagFromPullString s = orgRepoTagAmendedC1 s := by
  unfold orgRepoTagFromPullString orgRepoTagAmendedC1
  rcases h : goSplit '/' s with _ | ⟨a, _ | ⟨b, _ | ⟨c, _ | ⟨d, l⟩⟩⟩⟩ <;>
    simp [h, applyTagSplit_eq_exactTwo]

/-- Claim C1 as stated is false: on `foo:1:2` (one slash segment, two colons)
the code keeps the whole repo and the default tag, while the stated
first-colon rule yields repo `foo` and tag `1:2`. -/
theorem c1_canonicalizer_counterexample :
    orgRepoTagFromPullString "foo:1:2" = .ok ⟨"_", "foo:1:2", "latest"⟩ ∧
    orgRepoTagClaimC1 "foo:1:2" = .ok ⟨"_", "foo", "1:2"⟩ ∧
    orgRepoTagFromPullString "foo:1:2" ≠ orgRepoTagClaimC1 "foo:1:2" := by
  refine ⟨by decide, by decide, by decide⟩

lemma beq_except_error_ok (e : String) (b : Bool) :
    ((Except.error e : Except String Bool) == Except.ok b) = false := by
  simp [beq_eq_false_iff_ne]

lemma beq_except_ok_ok (b c : Bool) :
    ((Except.ok b : Except String Bool) == Except.ok c) = (b == c) := by
  cases b <;> cases c <;> simp [beq_iff_eq]

lemma pruneAsList_fst (filter : String → String → Except String Bool) (k : String)
    (as : List String) :
    (pruneAsList filter k as).1 = as.filter (fun a => filter a k == Except.ok true) := by
  induction as with
  | nil => rfl
  | cons a rest ih =>
    simp only [pruneAsList]
    rcases hrec : pruneAsList filter k rest with ⟨tl, errs⟩
    simp only [hrec] at ih
    rcases h : filter a k with e | b
    · simp [List.filter_cons, h, beq_except_error_ok, ih]
    · cases b <;> simp [List.filter_cons, h, beq_except_ok_ok, ih]

lemma pruneInputsRec_fst (filter : String → String → Except String Bool)
    (inputs : List (String × ImageBuildInputs)) :
    (pruneInputsRec filter inputs).1 = inputs.filterMap (fun kv =>
      if (kv.2.As.filter (fun a => filter a kv.1 == Except.ok true)).isEmpty
          && kv.2.Paths.isEmpty then none
      else some (kv.1, { kv.2 with
        As := kv.2.As.filter (fun a => filter a kv.1 == Except.ok true) })) := by
  induction inputs with
  | nil => rfl
  | cons kv rest ih =>
    obtain ⟨k, v⟩ := kv
    have hA := pruneAsList_fst filter k v.As
    simp only [pruneInputsRec, List.filterMap_cons]
    rcases h1 : pruneAsList filter k v.As with ⟨newAs, errs1⟩
    rcases h2 : pruneInputsRec filter rest with ⟨tl, errs2⟩
    rw [h1] at hA
    simp only [h2] at ih
    by_cases hc : newAs.isEmpty && v.Paths.isEmpty
    · simp [hc, ← hA, ih]
    · simp [hc, ← hA, ih]

lemma pruneImagesRec_fst (filter : String → String → Except String Bool)
    (imgs : List ImageEntry) :
    (pruneImagesRec filter imgs).1 =
      (imgs.map (fun img => { img with Inputs := (pruneInputsRec filter img.Inputs).1 })).filter
        (fun img => !img.Inputs.isEmpty || img.From != "" || img.To != "") := by
  induction imgs with
  | nil => rfl
  | cons img rest ih =>
    simp only [pruneImagesRec, List.map, List.filter]
    rcases h1 : pruneInputsRec filter img.Inputs with ⟨inp2, errs1⟩
    rcases h2 : pruneImagesRec filter rest with ⟨tl, errs2⟩
    simp only [h2] at ih
    by_cases hc : !({ img with Inputs := inp2 } : ImageEntry).Inputs.isEmpty
        || img.From != "" || img.To != ""
    · simp only at hc
      simp [hc, ih]
    · simp only at hc
      simp [hc, ih]

lemma pruneReplacements_char (cfg : Config) (keep : String → String → Except String Bool) :
    ((pruneReplacements cfg keep).1).Images =
      (cfg.Images.map (fun img =>
        { img with Inputs := img.Inputs.filterMap (fun kv =>
            if (kv.2.As.filter (fun a => keep a kv.1 == Except.ok true)).isEmpty
                && kv.2.Paths.isEmpty then none
            else some (kv.1, { kv.2 with
              As := kv.2.As.filter (fun a => keep a kv.1 == Except.ok true) })) })).filter
        (fun img => !img.Inputs.isEmpty || img.From != "" || img.To != "") ∧
    ((pruneReplacements cfg keep).1).Branch = cfg.Branch ∧
    ((pruneReplacements cfg keep).1).BaseImages = cfg.BaseImages := by
  have h2 := pruneImagesRec_fst keep cfg.Images
  rcases h : pruneImagesRec keep cfg.Images with ⟨imgs, errs⟩
  rw [h] at h2
  simp only [pruneInputsRec_fst] at h2
  refine ⟨?_, ?_, ?_⟩
  · simp [pruneReplacements, h, h2]
  · simp [pruneReplacements, h]
  · simp [pruneReplacements, h]

lemma squash_filter_cond (f : String → String → Except String Bool) (a k : String) :
    ((match f a k with
      | Except.error _ => (Except.ok false : Except String Bool)
      | Except.ok b => Except.ok b) == Except.ok true) = (f a k == Except.ok true) := by
  rcases h : f a k with e | b
  · simp [beq_except_error_ok, beq_except_ok_ok]
  · rfl

/-- Claim C10: an As entry on which the keep-predicate errors is omitted from
the retained As list exactly as if the predicate had returned false (the
pruned document is identical under error-squashing), and under the
disallowed-namespace policy a token that fails pull-spec canonicalization is
removed from the configuration with the error merely collected. -/
theorem c10_error_entries_pruned :
    (∀ (cfg : Config) (keep : String → String → Except String Bool),
      (pruneReplacements cfg (fun a k => match keep a k with
        | Except.error _ => Except.ok false
        | Except.ok b => Except.ok b)).1 = (pruneReplacements cfg keep).1) ∧
    pruneOCPBuilderReplacements cfgC10 =
      (⟨"main", [⟨"keep", "", "", "", []⟩], []⟩,
        ["failed to extract org and tag from pull spec x/y/z/w: " ++ parseErrMsg "x/y/z/w" 4]) := by
  constructor
  · intro cfg keep
    have h1 := pruneReplacements_char cfg (fun a k => match keep a k with
      | Except.error _ => Except.ok false
      | Except.ok b => Except.ok b)
    have h2 := pruneReplacements_char cfg keep
    have himg : (pruneReplacements cfg (fun a k => match keep a k with
        | Except.error _ => Except.ok false
        | Except.ok b => Except.ok b)).1.Images = (pruneReplacements cfg keep).1.Images := by
      rw [h1.1, h2.1]
      congr 1
      apply List.map_congr_left
      intro img _
      congr 1
      apply List.filterMap_congr
      intro kv _
      have hf : kv.2.As.filter (fun a =>
          (match keep a kv.1 with
            | Except.error _ => (Except.ok false : Except String Bool)
            | Except.ok b => Except.ok b) == Except.ok true) =
          kv.2.As.filter (fun a => keep a kv.1 == Except.ok true) := by
        apply List.filter_congr
        intro a _
        exact squash_filter_cond keep a kv.1
      rw [hf]
    have hbr := h1.2.1.trans h2.2.1.symm
    have hbi := h1.2.2.trans h2.2.2.symm
    cases hp : (pruneReplacements cfg (fun a k => match keep a k with
      | Except.error _ => Except.ok false
      | Except.ok b => Except.ok b)).1
    cases hq : (pruneReplacements cfg keep).1
    rw [hp] at himg hbr hbi
    rw [hq] at himg hbr hbi
    simp_all
  · decide

/-- Claim C3: the pruning reducer retains in each Input Record exactly the As
entries on which the keep-predicate returns true; a record whose filtered As
list and Paths list are both empty is deleted; and an Image Entry whose
Input Mapping becomes empty and whose From and To are both empty is dropped
from the document, while entries with non-empty From or To are kept.  The
rest of the document (branch, Base-Image Table) is untouched. -/
theorem c3_pruning_reducer (cfg : Config) (keep : String → String → Except String Bool) :
    ((pruneReplacements cfg keep).1).Images =
      (cfg.Images.map (fun img =>
        { img with Inputs := img.Inputs.filterMap (fun kv =>
            if (kv.2.As.filter (fun a => keep a kv.1 == Except.ok true)).isEmpty
                && kv.2.Paths.isEmpty then none
            else some (kv.1, { kv.2 with
              As := kv.2.As.filter (fun a => keep a kv.1 == Except.ok true) })) })).filter
        (fun img => !img.Inputs.isEmpty || img.From != "" || img.To != "") ∧
    ((pruneReplacements cfg keep).1).Branch = cfg.Branch ∧
    ((pruneReplacements cfg keep).1).BaseImages = cfg.BaseImages :=
  pruneReplacements_char cfg keep

/-- Claim C5 as stated is false: the token `ocp/builder` canonicalizes to the
disallowed (ocp, builder) pair and the Base-Image Table has NO entry for its
input key, yet the policy returns keep = false and the pruning run removes
the entry (the claim says it is still kept in that case). -/
theorem c5_disallowed_namespace_counterexample :
    orgRepoTagFromPullString "ocp/builder" = Except.ok ⟨"ocp", "builder", "latest"⟩ ∧
    lookupA cfgC5.BaseImages "somekey" = none ∧
    ocpBuilderFilter cfgC5 "ocp/builder" "somekey" = Except.ok false ∧
    pruneOCPBuilderReplacements cfgC5 = (⟨"main", [⟨"keepme", "", "", "", []⟩], []⟩, []) := by
  refine ⟨by decide, by decide, by decide, by decide⟩

/-- Claim C5, corrected: a token that canonicalizes to a pair other than
(ocp, builder) is kept; a token canonicalizing to the disallowed pair is
REMOVED when the Base-Image Table has no entry for the input key, and kept
exactly when the existing entry equals the disallowed pair's canonical
triple; a token failing canonicalization yields an error (and, per C10, is
removed). -/
theorem c5_disallowed_namespace_amended (cfg : Config) (a k : String) :
    (∀ ort, orgRepoTagFromPullString a = Except.ok ort →
      ((¬(ort.org = "ocp" ∧ ort.repo = "builder") → ocpBuilderFilter cfg a k = Except.ok true) ∧
       (ort.org = "ocp" → ort.repo = "builder" →
         (lookupA cfg.BaseImages k = none → ocpBuilderFilter cfg a k = Except.ok false) ∧
         (∀ ref, lookupA cfg.BaseImages k = some ref →
           ocpBuilderFilter cfg a k =
             Except.ok (ref.Namespace == ort.org && ref.Name == ort.repo && ref.Tag == ort.tag))))) ∧
    (∀ e, orgRepoTagFromPullString a = Except.error e →
      ocpBuilderFilter cfg a k =
        Except.error ("failed to extract org and tag from pull spec " ++ a ++ ": " ++ e)) := by
  constructor
  · intro ort hp
    constructor
    · intro hne
      have hcond : (ort.org != "ocp" || ort.repo != "builder") = true := by
        rcases not_and_or.mp hne with h | h <;> simp [bne_iff_ne, h]
      simp [ocpBuilderFilter, hp, hcond]
    · intro horg hrepo
      have hcond : (ort.org != "ocp" || ort.repo != "builder") = false := by
        simp [horg, hrepo]
      constructor
      · intro hl
        simp [ocpBuilderFilter, hp, hcond, hl]
      · intro ref hl
        cases hc : ref.Namespace == ort.org && ref.Name == ort.repo && ref.Tag == ort.tag <;>
          simp [ocpBuilderFilter, hp, hcond, hl, hc]
  · intro e he
    simp [ocpBuilderFilter, he]

/-- Concrete instance of the amended C5: a token canonicalizing to a pair
other than (ocp, builder) is kept. -/
theorem c5_disallowed_namespace_witness :
    orgRepoTagFromPullString "other/repo" = Except.ok ⟨"other", "repo", "latest"⟩ ∧
    ocpBuilderFilter ⟨"wb", [], []⟩ "other/repo" "kk" = Except.ok true :=
  ⟨by decide, ((c5_disallowed_namespace_amended ⟨"wb", [], []⟩ "other/repo" "kk").1
      ⟨"other", "repo", "latest"⟩ (by decide)).1 (by decide)⟩

lemma contains_setInsert_of_contains (l : List String) (x y : String)
    (h : l.contains y = true) : (setInsert x l).contains y = true := by
  rw [contains_iff_mem] at h ⊢
  unfold setInsert
  by_cases hc : x ∈ l
  · simp [hc, h]
  · simp [hc, h]

/-- Claim C4 (on the line-based extractor `extractAllSourceImagesFromDockerfile`):
a FROM directive whose image expression matches a recorded stage alias
contributes nothing to the candidate set; a line that is not a FROM directive
(in particular any COPY --from line) contributes nothing and leaves the
state untouched; and the three-line example yields exactly the candidates
a and b, not builder. -/
theorem c4_extractor_excludes_stage_refs :
    (∀ (st : ExtractState) (line : String) (w img : String) (rest : List String)
        (st2 : ExtractState),
      goFields line = w :: img :: rest → eqFold w "from" = true →
      st.aliases.contains img = true →
      extractLineStep st line = Except.ok st2 → st2.results = st.results) ∧
    (∀ (st : ExtractState) (line : String),
      (∀ w rest, goFields line = w :: rest → eqFold w "from" = false) →
      extractLineStep st line = Except.ok st) ∧
    extractAllSourceImagesFromDockerfile "FROM a AS builder\nFROM b\nCOPY --from=builder x y" =
      Except.ok ["a", "b"] := by
  refine ⟨?_, ?_, by decide⟩
  · intro st line w img rest st2 hfields hfold hmem hstep
    rcases rest with _ | ⟨x, _ | ⟨y, rest2⟩⟩
    · have hm : img ∈ st.aliases := (contains_iff_mem _ _).mp hmem
      simp only [extractLineStep, hfields, hfold] at hstep
      simp [hm] at hstep
      rw [← hstep]
    · simp only [extractLineStep, hfields, hfold] at hstep
      simp at hstep
    · rcases rest2 with _ | ⟨z, rest3⟩
      · have hm2 : img ∈ setInsert y st.aliases :=
          (contains_iff_mem _ _).mp (contains_setInsert_of_contains st.aliases y img hmem)
        simp only [extractLineStep, hfields, hfold] at hstep
        simp [hm2] at hstep
        rw [← hstep]
      · simp only [extractLineStep, hfields, hfold] at hstep
        simp [Nat.succ_ne_zero] at hstep
  · intro st line h
    cases hf : goFields line with
    | nil => simp [extractLineStep, hf]
    | cons w rest => simp [extractLineStep, hf, h w rest hf]

/-- Concrete instance of C4: processing `FROM builder` in a state that has
recorded the alias `builder` leaves the candidate set unchanged. -/
theorem c4_extractor_witness :
    extractLineStep ⟨["builder"], ["a"]⟩ "FROM builder" = Except.ok ⟨["builder"], ["a"]⟩ ∧
    (⟨["builder"], ["a"]⟩ : ExtractState).results = ["a"] :=
  ⟨by decide, c4_extractor_excludes_stage_refs.1 ⟨["builder"], ["a"]⟩ "FROM builder"
    "FROM" "builder" [] ⟨["builder"], ["a"]⟩ (by decide) (by decide) (by decide) (by decide)⟩

lemma extractLineStep_error_of_bareFrom (st : ExtractState) (line : String)
    (h : isBareFromLine line = true) : ∃ e, extractLineStep st line = Except.error e := by
  unfold isBareFromLine at h
  cases hstep : extractLineStep st line with
  | error e => exact ⟨e, rfl⟩
  | ok st2 =>
    exfalso
    cases hf : goFields line with
    | nil => rw [hf] at h; simp at h
    | cons w rest =>
      cases rest with
      | nil =>
        rw [hf] at h
        simp only [] at h
        simp [extractLineStep, hf, h] at hstep
      | cons b tail => rw [hf] at h; simp at h

lemma extractLinesGo_error_of_bareFrom (lines : List String)
    (h : ∃ l ∈ lines, isBareFromLine l = true) :
    ∀ st, ∃ e, extractLinesGo st lines = Except.error e := by
  induction lines with
  | nil => rcases h with ⟨l, hl, _⟩; simp at hl
  | cons l0 rest ih =>
    intro st
    cases hstep : extractLineStep st l0 with
    | error e => exact ⟨e, by simp [extractLinesGo, hstep]⟩
    | ok st2 =>
      rcases h with ⟨l, hl, hb⟩
      rcases List.mem_cons.mp hl with rfl | hmem
      · rcases extractLineStep_error_of_bareFrom st l hb with ⟨e, he⟩
        rw [he] at hstep
        exact absurd hstep (by simp)
      · rcases ih ⟨l, hmem, hb⟩ st2 with ⟨e, he⟩
        exact ⟨e, by simp [extractLinesGo, hstep, he]⟩

lemma extractAll_error_of_bareFrom (d : String)
    (h : ∃ l ∈ splitLines d, isBareFromLine l = true) :
    ∃ e, extractAllSourceImagesFromDockerfile d = Except.error e := by
  rcases extractLinesGo_error_of_bareFrom (splitLines d) h ⟨[], []⟩ with ⟨e, he⟩
  exact ⟨e, by simp [extractAllSourceImagesFromDockerfile, he]⟩

lemma processImages_error_of_extract_error (sim : String → String → Except String String)
    (extract : String → Except String (List String))
    (getter : String → Except String String) :
    ∀ (imgs : List ImageEntry) (bi : List (String × ImageStreamTagReference)),
      (∃ img ∈ imgs, ∃ d0 d1, getter (actualDockerfilePath img) = Except.ok d0 ∧
        applyReplacementsToDockerfile sim d0 img = Except.ok d1 ∧
        ∃ e0, extract d1 = Except.error e0) →
      ∃ e, processImages sim extract getter imgs bi = Except.error e := by
  intro imgs
  induction imgs with
  | nil =>
    intro bi h
    rcases h with ⟨img, hm, _⟩
    simp at hm
  | cons img0 rest ih =>
    intro bi h
    cases hp : processImage sim extract getter img0 bi with
    | error e => exact ⟨e, by simp [processImages, hp]⟩
    | ok res =>
      rcases h with ⟨img, hm, d0, d1, hg, ha, e0, he⟩
      rcases List.mem_cons.mp hm with rfl | hmem
      · exfalso
        simp only [processImage, hg, ha] at hp
        cases hens : ensureReplacement img d1 with
        | error e2 => rw [hens] at hp; simp at hp
        | ok pr =>
          rcases pr with ⟨i2, tags⟩
          rw [hens] at hp
          simp only [he] at hp
          simp at hp
      · obtain ⟨i2, bi2, ne, cands⟩ := res
        rcases ih bi2 ⟨img, hmem, d0, d1, hg, ha, e0, he⟩ with ⟨e, hrec⟩
        exact ⟨e, by simp [processImages, hp, hrec]⟩

lemma replacerRun_error_of_extract_error (sim : String → String → Except String String)
    (extract : String → Except String (List String))
    (getter : String → Except String String) (pu po : Bool)
    (mapping : List (String × String)) (mm : String)
    (promoted : List ImageStreamTagReference) (cfg : Config)
    (h : ∃ img ∈ cfg.Images, ∃ d0 d1, getter (actualDockerfilePath img) = Except.ok d0 ∧
        applyReplacementsToDockerfile sim d0 img = Except.ok d1 ∧
        ∃ e0, extract d1 = Except.error e0) :
    ∃ e, replacerRun sim extract getter pu po false mapping mm promoted cfg
      = Except.error e := by
  have hne : cfg.Images.isEmpty = false := by
    rcases h with ⟨img, hm, _⟩
    cases hi : cfg.Images with
    | nil => rw [hi] at hm; simp at hm
    | cons a b => rfl
  rcases processImages_error_of_extract_error sim extract getter cfg.Images cfg.BaseImages h
    with ⟨e, hperr⟩
  refine ⟨e, ?_⟩
  unfold replacerRun replacerCore
  simp [hne, hperr]

/-- Claim C7 (on the line-based extractor `extractAllSourceImagesFromDockerfile`):
a Dockerfile containing a bare FROM line fails extraction with a parse error
rather than being silently skipped; on the concrete input `"from\n\n"` the
error names the single token found where two or four were expected; and an
extraction failure aborts processing of the whole document (the driver run
returns an error and performs no write). -/
theorem c7_bare_from_fails :
    (∀ d : String, (∃ l ∈ splitLines d, isBareFromLine l = true) →
      ∃ e, extractAllSourceImagesFromDockerfile d = Except.error e) ∧
    extractAllSourceImagesFromDockerfile "from\n\n" =
      Except.error "extracting words from line \"from\" did not yield two or four but 1 results" ∧
    (∀ (sim : String → String → Except String String)
        (getter : String → Except String String) (pu po : Bool)
        (mapping : List (String × String)) (mm : String)
        (promoted : List ImageStreamTagReference) (cfg : Config),
      (∃ img ∈ cfg.Images, ∃ d0 d1, getter (actualDockerfilePath img) = Except.ok d0 ∧
        applyReplacementsToDockerfile sim d0 img = Except.ok d1 ∧
        ∃ l ∈ splitLines d1, isBareFromLine l = true) →
      ∃ e, replacerRun sim extractAllSourceImagesFromDockerfile getter pu po false
        mapping mm promoted cfg = Except.error e) := by
  refine ⟨extractAll_error_of_bareFrom, by decide, ?_⟩
  intro sim getter pu po mapping mm promoted cfg h
  apply replacerRun_error_of_extract_error
  rcases h with ⟨img, hm, d0, d1, hg, ha, hbare⟩
  exact ⟨img, hm, d0, d1, hg, ha, extractAll_error_of_bareFrom d1 hbare⟩

/-- Concrete instance of C7: a one-entry document whose Dockerfile fetch
yields `"from\n\n"` makes the whole driver run fail. -/
theorem c7_bare_from_witness :
    ∃ e, replacerRun simId extractAllSourceImagesFromDockerfile
      (fun _ => Except.ok "from\n\n") false false false [] "" [] cfgC7w = Except.error e :=
  c7_bare_from_fails.2.2 simId (fun _ => Except.ok "from\n\n") false false [] "" [] cfgC7w
    ⟨⟨"", "", "", "df", []⟩, by decide, "from\n\n", "from\n\n", rfl, by decide,
      "from", by decide, by decide⟩

lemma processImage_ne_false (sim : String → String → Except String String)
    (extract : String → Except String (List String))
    (getter : String → Except String String)
    (h : ∀ p, getter p = Except.ok "") (img : ImageEntry)
    (bi : List (String × ImageStreamTagReference))
    (res : ImageEntry × List (String × ImageStreamTagReference) × Bool × List String)
    (hp : processImage sim extract getter img bi = Except.ok res) : res.2.2.1 = false := by
  simp only [processImage, h (actualDockerfilePath img)] at hp
  cases ha : applyReplacementsToDockerfile sim "" img with
  | error e => simp [ha] at hp
  | ok d1 =>
    simp only [ha] at hp
    cases hens : ensureReplacement img d1 with
    | error e => simp [hens] at hp
    | ok pr =>
      rcases pr with ⟨i2, tags⟩
      simp only [hens] at hp
      cases hex : extract d1 with
      | error e => simp [hex] at hp
      | ok cands =>
        simp only [hex] at hp
        injection hp with hp2
        rw [← hp2]
        rfl

lemma processImages_ne_false (sim : String → String → Except String String)
    (extract : String → Except String (List String))
    (getter : String → Except String String)
    (h : ∀ p, getter p = Except.ok "") :
    ∀ (imgs : List ImageEntry) (bi : List (String × ImageStreamTagReference)) res,
      processImages sim extract getter imgs bi = Except.ok res → res.2.2.1 = false := by
  intro imgs
  induction imgs with
  | nil =>
    intro bi res hp
    simp only [processImages] at hp
    injection hp with hp2
    rw [← hp2]
  | cons img0 rest ih =>
    intro bi res hp
    simp only [processImages] at hp
    cases h1 : processImage sim extract getter img0 bi with
    | error e => simp [h1] at hp
    | ok res1 =>
      rcases res1 with ⟨i2, bi2, ne1, cands1⟩
      simp only [h1] at hp
      cases h2 : processImages sim extract getter rest bi2 with
      | error e => simp [h2] at hp
      | ok res2 =>
        rcases res2 with ⟨imgs3, bi3, ne2, cands2⟩
        simp only [h2] at hp
        injection hp with hp2
        have e1 : ne1 = false := processImage_ne_false sim extract getter h img0 bi _ h1
        have e2 : ne2 = false := ih bi2 _ h2
        rw [← hp2]
        simp [e1, e2]

/-- Claim C8: when every fetched Dockerfile is empty, the unused-replacement
pruning phase is skipped entirely; the whole run behaves exactly as if
unused-replacement pruning were disabled, so that phase removes no As entry,
no Input Record, and no Image Entry. -/
theorem c8_empty_dockerfiles_skip_pruning (sim : String → String → Except String String)
    (extract : String → Except String (List String))
    (getter : String → Except String String) (po ep : Bool)
    (mapping : List (String × String)) (mm : String)
    (promoted : List ImageStreamTagReference) (cfg : Config)
    (h : ∀ p, getter p = Except.ok "") :
    replacerRun sim extract getter true po ep mapping mm promoted cfg =
      replacerRun sim extract getter false po ep mapping mm promoted cfg := by
  have hcore : replacerCore sim extract getter true po ep mapping mm promoted cfg =
      replacerCore sim extract getter false po ep mapping mm promoted cfg := by
    unfold replacerCore
    cases hp : processImages sim extract getter
        (if ep then updateDockerfilesToMatchOCPBuildData cfg mapping mm promoted
          else cfg).Images
        (if ep then updateDockerfilesToMatchOCPBuildData cfg mapping mm promoted
          else cfg).BaseImages with
    | error e => simp [hp]
    | ok res =>
      rcases res with ⟨imgs, bi, ne, cands⟩
      have hne : ne = false := by
        have := processImages_ne_false sim extract getter h _ _ _ hp
        simpa using this
      subst hne
      simp [hp]
  unfold replacerRun
  rw [hcore]

/-- Concrete instance of C8 at a one-entry document. -/
theorem c8_empty_dockerfiles_witness :
    replacerRun simId extractAllSourceImagesFromDockerfile (fun _ => Except.ok "")
      true false false [] "" [] cfgC8w =
    replacerRun simId extractAllSourceImagesFromDockerfile (fun _ => Except.ok "")
      false false false [] "" [] cfgC8w :=
  c8_empty_dockerfiles_skip_pruning simId extractAllSourceImagesFromDockerfile
    (fun _ => Except.ok "") false false [] "" [] cfgC8w (fun _ => rfl)

/-- Claim C9: the promotion-Dockerfile reconciler is a no-op off the `master`
branch; when it applies and the authoritative mapping has an entry for the
stringified promotion target differing from the effective path, it clears
`ContextDir` and overwrites `DockerfilePath`; when the stringified pull-spec
is absent from the mapping the entry is unchanged (the reconciler is a total
function, so no error can be raised). -/
theorem c9_promotion_reconciler (cfg : Config) (mapping : List (String × String))
    (mm : String) (promoted : List ImageStreamTagReference) :
    (cfg.Branch ≠ "master" →
      updateDockerfilesToMatchOCPBuildData cfg mapping mm promoted = cfg) ∧
    (cfg.Branch = "master" → ∀ (i : Nat) (img : ImageEntry) (pt : ImageStreamTagReference)
        (p : String),
      cfg.Images[i]? = some img →
      lookupA (promotedTagIndex promoted mm) img.To = some pt →
      lookupA mapping (stringifiedPromotionTarget pt img.To) = some p →
      p ≠ actualDockerfilePath img →
      (updateDockerfilesToMatchOCPBuildData cfg mapping mm promoted).Images[i]? =
        some { img with ContextDir := "", DockerfilePath := p }) ∧
    (cfg.Branch = "master" → ∀ (i : Nat) (img : ImageEntry) (pt : ImageStreamTagReference),
      cfg.Images[i]? = some img →
      lookupA (promotedTagIndex promoted mm) img.To = some pt →
      lookupA mapping (stringifiedPromotionTarget pt img.To) = none →
      (updateDockerfilesToMatchOCPBuildData cfg mapping mm promoted).Images[i]? = some img) := by
  refine ⟨?_, ?_, ?_⟩
  · intro hb
    simp [updateDockerfilesToMatchOCPBuildData, hb]
  · intro hb i img pt p hi hpt hmap hne
    have hnonempty : (promotedTagIndex promoted mm).isEmpty = false :=
      lookupA_some_ne_nil _ _ _ hpt
    simp only [updateDockerfilesToMatchOCPBuildData, hb, ne_eq, not_true_eq_false,
      if_false, Bool.false_eq_true, hnonempty, ite_false]
    rw [List.getElem?_map, hi]
    simp [hpt, hmap, hne]
  · intro hb i img pt hi hpt hmap
    have hnonempty : (promotedTagIndex promoted mm).isEmpty = false :=
      lookupA_some_ne_nil _ _ _ hpt
    simp only [updateDockerfilesToMatchOCPBuildData, hb, ne_eq, not_true_eq_false,
      if_false, Bool.false_eq_true, hnonempty, ite_false]
    rw [List.getElem?_map, hi]
    simp [hpt, hmap]

/-- Concrete instance of C9: on a document whose branch is not `master` the
reconciler changes nothing. -/
theorem c9_promotion_reconciler_witness :
    updateDockerfilesToMatchOCPBuildData cfgC9w [] "4.6" [] = cfgC9w :=
  (c9_promotion_reconciler cfgC9w [] "4.6" []).1 (by decide)

lemma lookupA_mergeBaseImages (tags : List OrgRepoTag) :
    ∀ (bi : List (String × ImageStreamTagReference)) (k : String)
      (v : ImageStreamTagReference), lookupA bi k = some v →
      lookupA (mergeBaseImages bi tags) k = some v := by
  induction tags with
  | nil => intro bi k v h; exact h
  | cons t rest ih =>
    intro bi k v h
    have hstep : mergeBaseImages bi (t :: rest) =
        mergeBaseImages (if (lookupA bi t.toKey).isSome then bi
          else insertA bi t.toKey ⟨t.org, t.repo, t.tag⟩) rest := by
      simp [mergeBaseImages]
    rw [hstep]
    by_cases hc : (lookupA bi t.toKey).isSome
    · rw [if_pos hc]
      exact ih bi k v h
    · rw [if_neg hc]
      apply ih
      by_cases hk : t.toKey = k
      · rw [hk] at hc
        rw [h] at hc
        simp at hc
      · rw [lookupA_insertA_ne bi t.toKey k _ hk]
        exact h

lemma processImage_preserves_baseImages (sim : String → String → Except String String)
    (extract : String → Except String (List String))
    (getter : String → Except String String) (img : ImageEntry)
    (bi : List (String × ImageStreamTagReference)) (res)
    (hp : processImage sim extract getter img bi = Except.ok res) :
    ∀ k v, lookupA bi k = some v → lookupA res.2.1 k = some v := by
  intro k v h
  simp only [processImage] at hp
  cases hg : getter (actualDockerfilePath img) with
  | error e => simp [hg] at hp
  | ok d0 =>
    simp only [hg] at hp
    cases ha : applyReplacementsToDockerfile sim d0 img with
    | error e => simp [ha] at hp
    | ok d1 =>
      simp only [ha] at hp
      cases hens : ensureReplacement img d1 with
      | error e => simp [hens] at hp
      | ok pr =>
        rcases pr with ⟨i2, tags⟩
        simp only [hens] at hp
        cases hex : extract d1 with
        | error e => simp [hex] at hp
        | ok cands =>
          simp only [hex] at hp
          injection hp with hp2
          rw [← hp2]
          exact lookupA_mergeBaseImages tags bi k v h

lemma processImages_preserves_baseImages (sim : String → String → Except String String)
    (extract : String → Except String (List String))
    (getter : String → Except String String) :
    ∀ (imgs : List ImageEntry) (bi : List (String × ImageStreamTagReference)) res,
      processImages sim extract getter imgs bi = Except.ok res →
      ∀ k v, lookupA bi k = some v → lookupA res.2.1 k = some v := by
  intro imgs
  induction imgs with
  | nil =>
    intro bi res hp k v h
    simp only [processImages] at hp
    injection hp with hp2
    rw [← hp2]
    exact h
  | cons img0 rest ih =>
    intro bi res hp k v h
    simp only [processImages] at hp
    cases h1 : processImage sim extract getter img0 bi with
    | error e => simp [h1] at hp
    | ok res1 =>
      rcases res1 with ⟨i2, bi2, ne1, cands1⟩
      simp only [h1] at hp
      cases h2 : processImages sim extract getter rest bi2 with
      | error e => simp [h2] at hp
      | ok res2 =>
        rcases res2 with ⟨imgs3, bi3, ne2, cands2⟩
        simp only [h2] at hp
        injection hp with hp2
        rw [← hp2]
        have hb2 : lookupA bi2 k = some v :=
          processImage_preserves_baseImages sim extract getter img0 bi _ h1 k v h
        exact ih bi2 _ h2 k v hb2

/-- Claim C6: for an Image Entry with no inputs whose Dockerfile is
`FROM registry.svc.ci.openshift.org/org/repo:tag`, synthesis produces the
Input Record `org_repo_tag : As = [the token]` and registers the Base-Image
Table entry `org_repo_tag : (org, repo, tag)`; and every canonical identifier
that already has a Base-Image Table entry keeps that entry byte-for-byte
through the whole per-image phase. -/
theorem c6_synthesis (sim : String → String → Except String String)
    (extract : String → Except String (List String))
    (getter : String → Except String String) :
    (ensureReplacement ⟨"", "", "", "", []⟩
        "FROM registry.svc.ci.openshift.org/org/repo:tag" =
        Except.ok (⟨"", "", "", "",
          [("org_repo_tag", ⟨["registry.svc.ci.openshift.org/org/repo:tag"], []⟩)]⟩,
          [⟨"org", "repo", "tag"⟩]) ∧
      mergeBaseImages [] [⟨"org", "repo", "tag"⟩] =
        [("org_repo_tag", ⟨"org", "repo", "tag"⟩)]) ∧
    (∀ (imgs : List ImageEntry) (bi : List (String × ImageStreamTagReference)) res,
      processImages sim extract getter imgs bi = Except.ok res →
      ∀ k v, lookupA bi k = some v → lookupA res.2.1 k = some v) := by
  exact ⟨⟨by decide, by decide⟩, processImages_preserves_baseImages sim extract getter⟩

/-- Concrete instance of C6: a pre-existing Base-Image Table entry survives
the per-image phase untouched. -/
theorem c6_synthesis_witness :
    processImages simId extractAllSourceImagesFromDockerfile (fun _ => Except.ok "")
        cfgC6w.Images cfgC6w.BaseImages =
      Except.ok ([⟨"", "", "", "", []⟩], [("k0", ⟨"nsp", "nm", "tg"⟩)], false, []) ∧
    lookupA [("k0", (⟨"nsp", "nm", "tg"⟩ : ImageStreamTagReference))] "k0" =
      some ⟨"nsp", "nm", "tg"⟩ :=
  ⟨by decide,
    (c6_synthesis simId extractAllSourceImagesFromDockerfile (fun _ => Except.ok "")).2
      cfgC6w.Images cfgC6w.BaseImages
      ([⟨"", "", "", "", []⟩], [("k0", ⟨"nsp", "nm", "tg"⟩)], false, [])
      (by decide) "k0" ⟨"nsp", "nm", "tg"⟩ (by decide)⟩

lemma ensureInsertToken_fields (img : ImageEntry) (key tok : String) :
    (ensureInsertToken img key tok).From = img.From ∧
    (ensureInsertToken img key tok).To = img.To ∧
    (ensureInsertToken img key tok).ContextDir = img.ContextDir ∧
    (ensureInsertToken img key tok).DockerfilePath = img.DockerfilePath :=
  ⟨rfl, rfl, rfl, rfl⟩

lemma ensureLoop_fields :
    ∀ (ts : List String) (img img2 : ImageEntry) (tags : List OrgRepoTag),
      ensureLoop img ts = Except.ok (img2, tags) →
      img2.From = img.From ∧ img2.To = img.To ∧
      img2.ContextDir = img.ContextDir ∧ img2.DockerfilePath = img.DockerfilePath := by
  intro ts
  induction ts with
  | nil =>
    intro img img2 tags hp
    simp only [ensureLoop, Except.ok.injEq, Prod.mk.injEq] at hp
    obtain ⟨h1, h2⟩ := hp
    subst h1
    exact ⟨rfl, rfl, rfl, rfl⟩
  | cons t rest ih =>
    intro img img2 tags hp
    simp only [ensureLoop] at hp
    cases hparse : orgRepoTagFromPullString t with
    | error e => simp [hparse] at hp
    | ok ort =>
      simp only [hparse] at hp
      by_cases hh : hasReplacementFor img t
      · rw [if_pos hh] at hp
        exact ih img img2 tags hp
      · rw [if_neg hh] at hp
        cases hrec : ensureLoop (ensureInsertToken img ort.toKey t) rest with
        | error e => simp [hrec] at hp
        | ok pr =>
          rcases pr with ⟨i3, tags3⟩
          simp only [hrec, Except.ok.injEq, Prod.mk.injEq] at hp
          obtain ⟨h1, h2⟩ := hp
          subst h1
          have h3 := ih (ensureInsertToken img ort.toKey t) i3 tags3 hrec
          simpa [ensureInsertToken] using h3

lemma any_insertA_mono {α : Type} (p : α → Bool) :
    ∀ (m : List (String × α)) (key : String) (v : α),
      (∀ w, lookupA m key = some w → p w = true → p v = true) →
      m.any (fun kv => p kv.2) = true → (insertA m key v).any (fun kv => p kv.2) = true := by
  intro m
  induction m with
  | nil => intro key v _ hany; simp at hany
  | cons kv2 rest ih =>
    intro key v hmono hany
    obtain ⟨k2, v2⟩ := kv2
    by_cases hk : k2 = key
    · subst hk
      have hins : insertA ((k2, v2) :: rest) k2 v = (k2, v) :: rest := by simp [insertA]
      rw [hins]
      simp only [List.any_cons, Bool.or_eq_true] at hany ⊢
      rcases hany with hv2 | hrest
      · exact Or.inl (hmono v2 (by simp [lookupA]) hv2)
      · exact Or.inr hrest
    · have hins : insertA ((k2, v2) :: rest) key v = (k2, v2) :: insertA rest key v := by
        simp [insertA, hk]
      rw [hins]
      simp only [List.any_cons, Bool.or_eq_true] at hany ⊢
      rcases hany with hv2 | hrest
      · exact Or.inl hv2
      · refine Or.inr (ih key v ?_ hrest)
        intro w hw hpw
        apply hmono w _ hpw
        simp [lookupA, hk, hw]

lemma any_insertA_self {α : Type} (p : α → Bool) :
    ∀ (m : List (String × α)) (key : String) (v : α),
      p v = true → (insertA m key v).any (fun kv => p kv.2) = true := by
  intro m
  induction m with
  | nil => intro key v hv; simp [insertA, hv]
  | cons kv2 rest ih =>
    intro key v hv
    obtain ⟨k2, v2⟩ := kv2
    by_cases hk : k2 = key
    · subst hk
      have hins : insertA ((k2, v2) :: rest) k2 v = (k2, v) :: rest := by simp [insertA]
      rw [hins]
      simp [hv]
    · have hins : insertA ((k2, v2) :: rest) key v = (k2, v2) :: insertA rest key v := by
        simp [insertA, hk]
      rw [hins]
      simp only [List.any_cons, Bool.or_eq_true]
      exact Or.inr (ih key v hv)

lemma contains_sortDedup_append (as : List String) (tok t : String)
    (h : as.contains t = true) : (sortDedup (as ++ [tok])).contains t = true := by
  rw [contains_iff_mem] at h ⊢
  rw [mem_sortDedup]
  exact List.mem_append.mpr (Or.inl h)

lemma contains_sortDedup_self (as : List String) (tok : String) :
    (sortDedup (as ++ [tok])).contains tok = true := by
  rw [contains_iff_mem, mem_sortDedup]
  exact List.mem_append.mpr (Or.inr (by simp))

lemma hasReplacementFor_mono_insert (img : ImageEntry) (key tok t : String)
    (h : hasReplacementFor img t = true) :
    hasReplacementFor (ensureInsertToken img key tok) t = true := by
  unfold hasReplacementFor at h ⊢
  unfold ensureInsertToken
  apply any_insertA_mono (fun v => v.As.contains t) img.Inputs key _ _ h
  intro w hw hpw
  simp only [hw, Option.getD]
  exact contains_sortDedup_append w.As tok t hpw

lemma hasReplacementFor_self_insert (img : ImageEntry) (key tok : String) :
    hasReplacementFor (ensureInsertToken img key tok) tok = true := by
  exact any_insertA_self (fun v => v.As.contains tok) img.Inputs key
    { (lookupA img.Inputs key).getD ⟨[], []⟩ with
        As := sortDedup (((lookupA img.Inputs key).getD ⟨[], []⟩).As ++ [tok]) }
    (contains_sortDedup_self _ tok)

lemma ensureLoop_mono :
    ∀ (ts : List String) (img img2 : ImageEntry) (tags : List OrgRepoTag),
      ensureLoop img ts = Except.ok (img2, tags) →
      ∀ t, hasReplacementFor img t = true → hasReplacementFor img2 t = true := by
  intro ts
  induction ts with
  | nil =>
    intro img img2 tags hp t h
    simp only [ensureLoop, Except.ok.injEq, Prod.mk.injEq] at hp
    obtain ⟨h1, _⟩ := hp
    subst h1
    exact h
  | cons t0 rest ih =>
    intro img img2 tags hp t h
    simp only [ensureLoop] at hp
    cases hparse : orgRepoTagFromPullString t0 with
    | error e => simp [hparse] at hp
    | ok ort =>
      simp only [hparse] at hp
      by_cases hh : hasReplacementFor img t0
      · rw [if_pos hh] at hp
        exact ih img img2 tags hp t h
      · rw [if_neg hh] at hp
        cases hrec : ensureLoop (ensureInsertToken img ort.toKey t0) rest with
        | error e => simp [hrec] at hp
        | ok pr =>
          rcases pr with ⟨i3, tags3⟩
          simp only [hrec, Except.ok.injEq, Prod.mk.injEq] at hp
          obtain ⟨h1, _⟩ := hp
          subst h1
          exact ih _ i3 tags3 hrec t (hasReplacementFor_mono_insert img ort.toKey t0 t h)

lemma ensureLoop_covers :
    ∀ (ts : List String) (img img2 : ImageEntry) (tags : List OrgRepoTag),
      ensureLoop img ts = Except.ok (img2, tags) →
      ∀ t ∈ ts, (∃ ort, orgRepoTagFromPullString t = Except.ok ort) ∧
        hasReplacementFor img2 t = true := by
  intro ts
  induction ts with
  | nil => intro img img2 tags hp t ht; simp at ht
  | cons t0 rest ih =>
    intro img img2 tags hp t ht
    simp only [ensureLoop] at hp
    cases hparse : orgRepoTagFromPullString t0 with
    | error e => simp [hparse] at hp
    | ok ort =>
      simp only [hparse] at hp
      by_cases hh : hasReplacementFor img t0
      · rw [if_pos hh] at hp
        rcases List.mem_cons.mp ht with rfl | hmem
        · exact ⟨⟨ort, hparse⟩, ensureLoop_mono rest img img2 tags hp t hh⟩
        · exact ih img img2 tags hp t hmem
      · rw [if_neg hh] at hp
        cases hrec : ensureLoop (ensureInsertToken img ort.toKey t0) rest with
        | error e => simp [hrec] at hp
        | ok pr =>
          rcases pr with ⟨i3, tags3⟩
          simp only [hrec, Except.ok.injEq, Prod.mk.injEq] at hp
          obtain ⟨h1, _⟩ := hp
          subst h1
          rcases List.mem_cons.mp ht with rfl | hmem
          · exact ⟨⟨ort, hparse⟩, ensureLoop_mono rest _ i3 tags3 hrec t
              (hasReplacementFor_self_insert img ort.toKey t)⟩
          · exact ih _ i3 tags3 hrec t hmem

lemma ensureLoop_skip_all :
    ∀ (ts : List String) (img : ImageEntry),
      (∀ t ∈ ts, (∃ ort, orgRepoTagFromPullString t = Except.ok ort) ∧
        hasReplacementFor img t = true) →
      ensureLoop img ts = Except.ok (img, []) := by
  intro ts
  induction ts with
  | nil => intro img _; rfl
  | cons t0 rest ih =>
    intro img h
    obtain ⟨⟨ort, hparse⟩, hrep⟩ := h t0 (by simp)
    simp only [ensureLoop, hparse, if_pos hrep]
    exact ih img (fun t ht => h t (List.mem_cons_of_mem t0 ht))

lemma ensureReplacement_stable (img img2 : ImageEntry) (d : String)
    (tags : List OrgRepoTag)
    (hp : ensureReplacement img d = Except.ok (img2, tags)) :
    ensureReplacement img2 d = Except.ok (img2, []) := by
  unfold ensureReplacement at hp ⊢
  exact ensureLoop_skip_all (ensureTokens d) img2 (ensureLoop_covers (ensureTokens d) img img2 tags hp)

lemma processImage_inv (sim : String → String → Except String String)
    (extract : String → Except String (List String))
    (getter : String → Except String String) (img : ImageEntry)
    (bi : List (String × ImageStreamTagReference)) (res)
    (hp : processImage sim extract getter img bi = Except.ok res) :
    ∃ d0 d1 i2 tags cands,
      getter (actualDockerfilePath img) = Except.ok d0 ∧
      applyReplacementsToDockerfile sim d0 img = Except.ok d1 ∧
      ensureReplacement img d1 = Except.ok (i2, tags) ∧
      extract d1 = Except.ok cands ∧
      res = (i2, mergeBaseImages bi tags, !(d0 == ""), cands) := by
  simp only [processImage] at hp
  cases hg : getter (actualDockerfilePath img) with
  | error e => simp [hg] at hp
  | ok d0 =>
    simp only [hg] at hp
    cases ha : applyReplacementsToDockerfile sim d0 img with
    | error e => simp [ha] at hp
    | ok d1 =>
      simp only [ha] at hp
      cases hens : ensureReplacement img d1 with
      | error e => simp [hens] at hp
      | ok pr =>
        rcases pr with ⟨i2, tags⟩
        simp only [hens] at hp
        cases hex : extract d1 with
        | error e => simp [hex] at hp
        | ok cands =>
          simp only [hex, Except.ok.injEq] at hp
          exact ⟨d0, d1, i2, tags, cands, rfl, ha, hens, hex, hp.symm⟩

lemma actualDockerfilePath_stable (img img2 : ImageEntry)
    (h1 : img2.ContextDir = img.ContextDir) (h2 : img2.DockerfilePath = img.DockerfilePath) :
    actualDockerfilePath img2 = actualDockerfilePath img := by
  unfold actualDockerfilePath
  rw [h1, h2]

lemma processImage_stable (sim : String → String → Except String String)
    (extract : String → Except String (List String))
    (getter : String → Except String String) (img : ImageEntry)
    (bi : List (String × ImageStreamTagReference))
    (img2 : ImageEntry) (bi2 : List (String × ImageStreamTagReference))
    (ne : Bool) (cands : List String)
    (hp : processImage sim extract getter img bi = Except.ok (img2, bi2, ne, cands)) :
    ∀ bi3, processImage sim extract getter img2 bi3 = Except.ok (img2, bi3, ne, cands) := by
  intro bi3
  rcases processImage_inv sim extract getter img bi _ hp
    with ⟨d0, d1, i2, tags, cands0, hg, ha, hens, hex, hres⟩
  simp only [Prod.mk.injEq] at hres
  obtain ⟨h1, h2, h3, h4⟩ := hres
  subst h1
  have hfields := ensureLoop_fields (ensureTokens d1) img img2 tags hens
  have hpath : actualDockerfilePath img2 = actualDockerfilePath img :=
    actualDockerfilePath_stable img img2 hfields.2.2.1 hfields.2.2.2
  have hasim : applyReplacementsToDockerfile sim d0 img2 = Except.ok d1 := by
    unfold applyReplacementsToDockerfile at ha ⊢
    rw [hfields.1]
    exact ha
  have hens2 : ensureReplacement img2 d1 = Except.ok (img2, []) :=
    ensureReplacement_stable img img2 d1 tags hens
  simp only [processImage, hpath, hg, hasim, hens2, hex]
  simp [mergeBaseImages, h3, h4]

lemma processImages_stable (sim : String → String → Except String String)
    (extract : String → Except String (List String))
    (getter : String → Except String String) :
    ∀ (imgs : List ImageEntry) (bi : List (String × ImageStreamTagReference))
      (imgs2 : List ImageEntry) (bi2 : List (String × ImageStreamTagReference))
      (ne : Bool) (cands : List String),
      processImages sim extract getter imgs bi = Except.ok (imgs2, bi2, ne, cands) →
      processImages sim extract getter imgs2 bi2 = Except.ok (imgs2, bi2, ne, cands) := by
  intro imgs
  induction imgs with
  | nil =>
    intro bi imgs2 bi2 ne cands hp
    simp only [processImages, Except.ok.injEq, Prod.mk.injEq] at hp
    obtain ⟨h1, h2, h3, h4⟩ := hp
    subst h1; subst h2; subst h3; subst h4
    rfl
  | cons img0 rest ih =>
    intro bi imgs2 bi2 ne cands hp
    simp only [processImages] at hp
    cases h1 : processImage sim extract getter img0 bi with
    | error e => simp [h1] at hp
    | ok res1 =>
      rcases res1 with ⟨i2, bim, ne1, cands1⟩
      simp only [h1] at hp
      cases h2 : processImages sim extract getter rest bim with
      | error e => simp [h2] at hp
      | ok res2 =>
        rcases res2 with ⟨rest2, bi3, ne2, cands2⟩
        simp only [h2, Except.ok.injEq, Prod.mk.injEq] at hp
        obtain ⟨ha1, ha2, ha3, ha4⟩ := hp
        subst ha1; subst ha2; subst ha3; subst ha4
        have hstep := processImage_stable sim extract getter img0 bi i2 bim ne1 cands1 h1 bi3
        have hrest := ih bim rest2 bi3 ne2 cands2 h2
        simp only [processImages, hstep, hrest]

lemma processImages_length (sim : String → String → Except String String)
    (extract : String → Except String (List String))
    (getter : String → Except String String) :
    ∀ (imgs : List ImageEntry) (bi : List (String × ImageStreamTagReference))
      (imgs2 : List ImageEntry) (bi2 : List (String × ImageStreamTagReference))
      (ne : Bool) (cands : List String),
      processImages sim extract getter imgs bi = Except.ok (imgs2, bi2, ne, cands) →
      imgs2.length = imgs.length := by
  intro imgs
  induction imgs with
  | nil =>
    intro bi imgs2 bi2 ne cands hp
    simp only [processImages, Except.ok.injEq, Prod.mk.injEq] at hp
    rw [← hp.1]
  | cons img0 rest ih =>
    intro bi imgs2 bi2 ne cands hp
    simp only [processImages] at hp
    cases h1 : processImage sim extract getter img0 bi with
    | error e => simp [h1] at hp
    | ok res1 =>
      rcases res1 with ⟨i2, bim, ne1, cands1⟩
      simp only [h1] at hp
      cases h2 : processImages sim extract getter rest bim with
      | error e => simp [h2] at hp
      | ok res2 =>
        rcases res2 with ⟨rest2, bi3, ne2, cands2⟩
        simp only [h2, Except.ok.injEq, Prod.mk.injEq] at hp
        rw [← hp.1]
        simp [ih bim rest2 bi3 ne2 cands2 h2]

lemma replacerCore_base_eq (sim : String → String → Except String String)
    (extract : String → Except String (List String))
    (getter : String → Except String String) (mm : String) (cfg : Config) :
    replacerCore sim extract getter false false false [] mm [] cfg =
      (match processImages sim extract getter cfg.Images cfg.BaseImages with
        | Except.error e => Except.error e
        | Except.ok (imgs, bi, _, _) =>
          Except.ok { cfg with Images := imgs, BaseImages := bi }) := rfl

lemma replacerCore_base_inv (sim : String → String → Except String String)
    (extract : String → Except String (List String))
    (getter : String → Except String String) (mm : String) (cfg fin : Config)
    (hc : replacerCore sim extract getter false false false [] mm [] cfg = Except.ok fin) :
    ∃ ne cands, processImages sim extract getter cfg.Images cfg.BaseImages =
        Except.ok (fin.Images, fin.BaseImages, ne, cands) ∧
      fin = { cfg with Images := fin.Images, BaseImages := fin.BaseImages } := by
  rw [replacerCore_base_eq] at hc
  cases hp : processImages sim extract getter cfg.Images cfg.BaseImages with
  | error e => rw [hp] at hc; exact absurd hc (by simp)
  | ok res =>
    rcases res with ⟨imgs, bi, ne, cands⟩
    rw [hp] at hc
    simp only [Except.ok.injEq] at hc
    subst hc
    exact ⟨ne, cands, rfl, rfl⟩

/-- Claim C2, corrected: the writer model is invoked at most once per
document (the run returns at most one written serialization) and exactly
when the serialized-after differs from the serialized-before, the payload
being the new serialization; and when no pruning policy and no
promotion-Dockerfile reconciliation are enabled, a second run on the output
of a first successful run performs no write.  (With unused-replacement
pruning enabled the second half fails, see the counterexample.) -/
theorem c2_write_on_change_amended :
    (∀ (sim : String → String → Except String String)
        (extract : String → Except String (List String))
        (getter : String → Except String String) (pu po ep : Bool)
        (mapping : List (String × String)) (mm : String)
        (promoted : List ImageStreamTagReference) (cfg fin : Config) (w : Option Config),
      replacerRun sim extract getter pu po ep mapping mm promoted cfg = Except.ok (fin, w) →
      (w = none ↔ marshalNorm fin = marshalNorm cfg) ∧
      (∀ m, w = some m → m = marshalNorm fin ∧ marshalNorm fin ≠ marshalNorm cfg)) ∧
    (∀ (sim : String → String → Except String String)
        (extract : String → Except String (List String))
        (getter : String → Except String String) (mm : String)
        (cfg fin : Config) (w : Option Config),
      replacerRun sim extract getter false false false [] mm [] cfg = Except.ok (fin, w) →
      replacerRun sim extract getter false false false [] mm [] fin = Except.ok (fin, none)) := by
  constructor
  · intro sim extract getter pu po ep mapping mm promoted cfg fin w hp
    unfold replacerRun at hp
    by_cases hi : cfg.Images.isEmpty
    · rw [if_pos hi] at hp
      simp only [Except.ok.injEq, Prod.mk.injEq] at hp
      obtain ⟨h1, h2⟩ := hp
      subst h1; subst h2
      simp
    · rw [if_neg hi] at hp
      cases hc : replacerCore sim extract getter pu po ep mapping mm promoted cfg with
      | error e => simp [hc] at hp
      | ok fin2 =>
        simp only [hc] at hp
        by_cases hm : marshalNorm fin2 = marshalNorm cfg
        · rw [if_pos hm] at hp
          simp only [Except.ok.injEq, Prod.mk.injEq] at hp
          obtain ⟨h1, h2⟩ := hp
          subst h1; subst h2
          simp [hm]
        · rw [if_neg hm] at hp
          simp only [Except.ok.injEq, Prod.mk.injEq] at hp
          obtain ⟨h1, h2⟩ := hp
          subst h1; subst h2
          constructor
          · simp [hm]
          · intro m hmEq
            simp only [Option.some.injEq] at hmEq
            exact ⟨hmEq.symm, hm⟩
  · intro sim extract getter mm cfg fin w hp
    unfold replacerRun at hp
    by_cases hi : cfg.Images.isEmpty
    · rw [if_pos hi] at hp
      simp only [Except.ok.injEq, Prod.mk.injEq] at hp
      obtain ⟨h1, h2⟩ := hp
      subst h1
      unfold replacerRun
      rw [if_pos hi]
    · rw [if_neg hi] at hp
      cases hc : replacerCore sim extract getter false false false [] mm [] cfg with
      | error e => simp [hc] at hp
      | ok fin2 =>
        simp only [hc] at hp
        have hfin : fin = fin2 := by
          by_cases hm : marshalNorm fin2 = marshalNorm cfg
          · rw [if_pos hm] at hp
            simp only [Except.ok.injEq, Prod.mk.injEq] at hp
            exact hp.1.symm
          · rw [if_neg hm] at hp
            simp only [Except.ok.injEq, Prod.mk.injEq] at hp
            exact hp.1.symm
        subst hfin
        rcases replacerCore_base_inv sim extract getter mm cfg fin hc
          with ⟨ne, cands, hproc, hshape⟩
        have hstable := processImages_stable sim extract getter cfg.Images cfg.BaseImages
          fin.Images fin.BaseImages ne cands hproc
        have hlen := processImages_length sim extract getter cfg.Images cfg.BaseImages
          fin.Images fin.BaseImages ne cands hproc
        have hfne : fin.Images.isEmpty = false := by
          cases hcfg : cfg.Images with
          | nil => rw [hcfg] at hi; simp at hi
          | cons a b =>
            rw [hcfg] at hlen
            cases hfi : fin.Images with
            | nil => rw [hfi] at hlen; simp at hlen
            | cons c d => rfl
        have hcore2 : replacerCore sim extract getter false false false [] mm [] fin =
            Except.ok fin := by
          rw [replacerCore_base_eq, hstable]
        unfold replacerRun
        rw [if_neg (by simp [hfne])]
        rw [hcore2]
        simp

/-- Claim C2 as stated is false: with unused-replacement pruning enabled the
first run prunes entry A away (a write), and the second run on the written
document prunes entry B's Input Record too (a second write), because entry
A's Dockerfile no longer contributes its replacement candidate. -/
theorem c2_idempotence_counterexample :
    replacerRun simId extractAllSourceImagesFromDockerfile getterC2 true false false [] "" []
      cfgC2 = Except.ok (cfgC2b, some cfgC2b) ∧
    replacerRun simId extractAllSourceImagesFromDockerfile getterC2 true false false [] "" []
      cfgC2b = Except.ok (cfgC2c, some cfgC2c) ∧
    cfgC2b ≠ cfgC2 ∧ cfgC2c ≠ cfgC2b :=
  ⟨by decide, by decide, by decide, by decide⟩

/-- Concrete instance of the amended C2: a document the base pipeline leaves
unchanged is not written, and a second run still performs no write. -/
theorem c2_write_on_change_witness :
    replacerRun simId extractAllSourceImagesFromDockerfile (fun _ => Except.ok "")
      false false false [] "" [] cfgOneTrivial = Except.ok (cfgOneTrivial, none) :=
  c2_write_on_change_amended.2 simId extractAllSourceImagesFromDockerfile
    (fun _ => Except.ok "") "" cfgOneTrivial cfgOneTrivial none (by decide)
